import Mathlib

/-!
Shallow embedding of the disaggregation calculator core
(`openquake/calculators/disaggregation.py`) and proofs about it.

Probabilities (numpy float64 values in the source) are embedded as
rationals `ℚ`, so the algebraic identities hold exactly.  Matrices are
embedded either as functions `ι → ℚ` over an abstract index type (when a
claim is about element-wise behaviour) or as flat lists of cells (when a
claim is about emptiness tests such as `matrix.any()`).
-/

namespace OQDisagg

/-- Embedding of `agg_probs(*probs)` from disaggregation.py:
`acc = 1 - probs[0]; for prob in probs[1:]: acc *= 1 - prob; return 1 - acc`.
The Python function is variadic with at least one argument, embedded here
as a head argument plus the list of remaining arguments. -/
def agg_probs (p : ℚ) (ps : List ℚ) : ℚ :=
  1 - ps.foldl (fun acc q => acc * (1 - q)) (1 - p)

/-- Folding `acc * (1 - q)` over a list starting from `a` is `a` times the
product of the `1 - q`. -/
theorem foldl_mul_one_sub (a : ℚ) (ps : List ℚ) :
    ps.foldl (fun acc q => acc * (1 - q)) a = a * (ps.map (fun q => 1 - q)).prod := by
  induction ps generalizing a with
  | nil => simp
  | cons q ps ih =>
      simp only [List.foldl_cons, List.map_cons, List.prod_cons, ih, mul_assoc]

/-- Closed form of `agg_probs`: `1 - (1 - p) * ∏ (1 - q)`. -/
theorem agg_probs_eq (p : ℚ) (ps : List ℚ) :
    agg_probs p ps = 1 - (1 - p) * (ps.map (fun q => 1 - q)).prod := by
  unfold agg_probs
  rw [foldl_mul_one_sub]

/-- Binary case: `agg_probs(a, b) = 1 - (1 - a) * (1 - b)`. -/
theorem agg_probs_pair (a b : ℚ) : agg_probs a [b] = 1 - (1 - a) * (1 - b) := by
  simp [agg_probs_eq]

/-- Unary case: `agg_probs(p) = p`. -/
theorem agg_probs_single (p : ℚ) : agg_probs p [] = p := by
  simp [agg_probs_eq]

section AggResult

/-- The accumulator of `DisaggregationCalculator.agg_result`:
`acc` is a dictionary `imti, sid -> trti, magi -> 6D array`; an absent inner
key is `None` here (in the source, `.get((trti, magi), 0)` supplies the
scalar 0 which numpy broadcasts over the matrix). -/
def AccState (ι : Type) := Nat × Nat → Nat × Nat → Option (ι → ℚ)

/-- One result dictionary yielded by `compute_disagg`:
`{'trti': trti, 'magi': magi, 'imti': imti, sid: matrix}` — a single site id
mapped to a 6D matrix, tagged with the three indices. -/
structure PartialResult (ι : Type) where
  trti : Nat
  magi : Nat
  imti : Nat
  sid : Nat
  probs : ι → ℚ

/-- Embedding of `DisaggregationCalculator.agg_result`: pops trti/imti/magi from the
result and, for the site entry, does
`before = acc[imti, sid].get((trti, magi), 0);
 acc[imti, sid][trti, magi] = agg_probs(before, probs)` element-wise. -/
def agg_result {ι : Type} (acc : AccState ι) (r : PartialResult ι) : AccState ι :=
  fun is tm =>
    if is = (r.imti, r.sid) ∧ tm = (r.trti, r.magi) then
      let before : ι → ℚ := (acc (r.imti, r.sid) (r.trti, r.magi)).getD (fun _ => 0)
      some (fun i => agg_probs (before i) [r.probs i])
    else acc is tm

end AggResult

/-- C1: `agg_result` merges the incoming partial matrix into the slot keyed
by `(imti, sid)` and `(trti, magi)` with the rule `1 - (1-before)*(1-new)`
element-wise; an absent prior slot behaves as 0, so the partial matrix is
stored unchanged there; other slots are untouched; and combining 0.5 with
0.5 gives exactly 0.75. -/
theorem C1_agg_result_merge {ι : Type} (acc : AccState ι) (r : PartialResult ι)
    (m0 : ι → ℚ) :
    (acc (r.imti, r.sid) (r.trti, r.magi) = some m0 →
      agg_result acc r (r.imti, r.sid) (r.trti, r.magi)
        = some (fun i => 1 - (1 - m0 i) * (1 - r.probs i))) ∧
    (acc (r.imti, r.sid) (r.trti, r.magi) = none →
      agg_result acc r (r.imti, r.sid) (r.trti, r.magi)
        = some (fun i => r.probs i)) ∧
    (∀ is tm, ¬(is = (r.imti, r.sid) ∧ tm = (r.trti, r.magi)) →
      agg_result acc r is tm = acc is tm) ∧
    agg_probs (1/2) [1/2] = 3/4 := by
  refine ⟨?_, ?_, ?_, ?_⟩
  · intro h
    simp only [agg_result, h, and_self, if_true, Option.getD_some, Option.some.injEq]
    funext i
    rw [agg_probs_pair]
  · intro h
    simp only [agg_result, h, and_self, if_true, Option.getD_none, Option.some.injEq]
    funext i
    rw [agg_probs_pair]
    ring
  · intro is tm h
    simp only [agg_result, if_neg h]
  · rw [agg_probs_pair]
    norm_num

/-- Witness for C1 at concrete inputs: starting from an empty accumulator,
merging a constant-0.5 matrix stores it unchanged, and merging a second
constant-0.5 matrix yields exactly 0.75 in the cell. -/
theorem C1_agg_result_merge_witness :
    (agg_result (ι := Unit) (fun _ _ => none) ⟨0, 0, 0, 0, fun _ => 1/2⟩ (0, 0) (0, 0)
      = some (fun _ => 1/2)) ∧
    (agg_result (agg_result (ι := Unit) (fun _ _ => none) ⟨0, 0, 0, 0, fun _ => 1/2⟩)
        ⟨0, 0, 0, 0, fun _ => 1/2⟩ (0, 0) (0, 0)
      = some (fun _ => 1 - (1 - 1/2) * (1 - 1/2))) := by
  constructor
  · exact (C1_agg_result_merge (ι := Unit) (fun _ _ => none)
      ⟨0, 0, 0, 0, fun _ => 1/2⟩ (fun _ => 1/2)).2.1 rfl
  · exact (C1_agg_result_merge (ι := Unit)
      (agg_result (fun _ _ => none) ⟨0, 0, 0, 0, fun _ => 1/2⟩)
      ⟨0, 0, 0, 0, fun _ => 1/2⟩ (fun _ => 1/2)).1
      ((C1_agg_result_merge (ι := Unit) (fun _ _ => none)
        ⟨0, 0, 0, 0, fun _ => 1/2⟩ (fun _ => 1/2)).2.1 rfl)

/-- C2: the pairwise combination `agg_probs(a, b) = 1 - (1-a)(1-b)` is
commutative and associative, and 0 is its identity, for values in [0,1]. -/
theorem C2_agg_probs_comm_assoc_id (a b c : ℚ)
    (_ha : 0 ≤ a ∧ a ≤ 1) (_hb : 0 ≤ b ∧ b ≤ 1) (_hc : 0 ≤ c ∧ c ≤ 1) :
    agg_probs a [b] = agg_probs b [a] ∧
    agg_probs (agg_probs a [b]) [c] = agg_probs a [agg_probs b [c]] ∧
    agg_probs 0 [c] = c := by
  refine ⟨?_, ?_, ?_⟩ <;> simp only [agg_probs_pair] <;> ring

/-- Witness for C2 at a = 1/4, b = 1/2, c = 1/3. -/
theorem C2_agg_probs_comm_assoc_id_witness :
    agg_probs (1/4 : ℚ) [1/2] = agg_probs (1/2) [1/4] ∧
    agg_probs (agg_probs (1/4 : ℚ) [1/2]) [1/3]
      = agg_probs (1/4) [agg_probs (1/2) [1/3]] ∧
    agg_probs (0 : ℚ) [1/3] = 1/3 :=
  C2_agg_probs_comm_assoc_id (1/4) (1/2) (1/3)
    (by norm_num) (by norm_num) (by norm_num)

section ListProd

/-- Product of a list of non-negative rationals is non-negative. -/
theorem list_prod_nonneg (l : List ℚ) (h : ∀ x ∈ l, 0 ≤ x) : 0 ≤ l.prod := by
  induction l with
  | nil => simp
  | cons a l ih =>
      rw [List.prod_cons]
      exact mul_nonneg (h a (by simp)) (ih (fun x hx => h x (List.mem_cons_of_mem a hx)))

/-- Product of a list of rationals in [0,1] is at most 1. -/
theorem list_prod_le_one (l : List ℚ) (h : ∀ x ∈ l, 0 ≤ x ∧ x ≤ 1) : l.prod ≤ 1 := by
  induction l with
  | nil => simp
  | cons a l ih =>
      rw [List.prod_cons]
      have ha := h a (by simp)
      have hl : l.prod ≤ 1 := ih (fun x hx => h x (List.mem_cons_of_mem a hx))
      have hl0 : 0 ≤ l.prod :=
        list_prod_nonneg l (fun x hx => (h x (List.mem_cons_of_mem a hx)).1)
      nlinarith

/-- Product of a list of rationals in [0,1] is at most any of its members. -/
theorem list_prod_le_mem (l : List ℚ) (h : ∀ x ∈ l, 0 ≤ x ∧ x ≤ 1)
    (a : ℚ) (ha : a ∈ l) : l.prod ≤ a := by
  induction l with
  | nil => simp at ha
  | cons b l ih =>
      rw [List.prod_cons]
      have hb := h b (by simp)
      have hl1 : l.prod ≤ 1 := list_prod_le_one l (fun x hx => h x (List.mem_cons_of_mem b hx))
      have hl0 : 0 ≤ l.prod :=
        list_prod_nonneg l (fun x hx => (h x (List.mem_cons_of_mem b hx)).1)
      rcases List.mem_cons.mp ha with rfl | hmem
      · nlinarith
      · have := ih (fun x hx => h x (List.mem_cons_of_mem b hx)) hmem
        have ha01 := h a (List.mem_cons_of_mem b hmem)
        nlinarith

end ListProd

/-- Embedding of `agg_probs(*matrix6)`: the variadic call applied to the slices of a
matrix along its first axis, element-wise (numpy broadcasting). The empty
list cannot occur in the source (`probs[0]` would fail); it maps to the
zero matrix here. -/
def aggStar {ι : Type} : List (ι → ℚ) → (ι → ℚ)
  | [] => fun _ => 0
  | m :: ms => fun i => agg_probs (m i) (ms.map (fun f => f i))

/-- C10: for probabilities in [0,1], `agg_probs` stays in [0,1] and
dominates every argument; with a single argument it is the identity, so
collapsing a TRT axis of length one leaves the matrix unmodified. -/
theorem C10_agg_probs_bounds {ι : Type} (p : ℚ) (ps : List ℚ) (m : ι → ℚ)
    (hp : 0 ≤ p ∧ p ≤ 1) (hps : ∀ q ∈ ps, 0 ≤ q ∧ q ≤ 1) :
    (0 ≤ agg_probs p ps ∧ agg_probs p ps ≤ 1) ∧
    p ≤ agg_probs p ps ∧
    (∀ q ∈ ps, q ≤ agg_probs p ps) ∧
    agg_probs p [] = p ∧
    (∀ i, aggStar [m] i = m i) := by
  have key : ∀ x ∈ ps.map (fun q => 1 - q), 0 ≤ x ∧ x ≤ 1 := by
    intro x hx
    obtain ⟨q, hq, rfl⟩ := List.mem_map.mp hx
    have := hps q hq
    constructor <;> linarith [this.1, this.2]
  have h0 : 0 ≤ (ps.map (fun q => 1 - q)).prod :=
    list_prod_nonneg _ (fun x hx => (key x hx).1)
  have h1 : (ps.map (fun q => 1 - q)).prod ≤ 1 := list_prod_le_one _ key
  refine ⟨⟨?_, ?_⟩, ?_, ?_, agg_probs_single p, ?_⟩
  · rw [agg_probs_eq]
    nlinarith [hp.1, hp.2]
  · rw [agg_probs_eq]
    nlinarith [hp.1, hp.2]
  · rw [agg_probs_eq]
    nlinarith [hp.1, hp.2]
  · intro q hq
    rw [agg_probs_eq]
    have hmem : (1 - q) ∈ ps.map (fun r => 1 - r) := List.mem_map.mpr ⟨q, hq, rfl⟩
    have := list_prod_le_mem _ key (1 - q) hmem
    nlinarith [hp.1, hp.2]
  · intro i
    simp [aggStar, agg_probs_single]

/-- Witness for C10 at p = 1/2, ps = [1/3, 2/3], m the constant-1/2 matrix
on a one-point index set. -/
theorem C10_agg_probs_bounds_witness :
    (0 ≤ agg_probs (1/2 : ℚ) [1/3, 2/3] ∧ agg_probs (1/2 : ℚ) [1/3, 2/3] ≤ 1) ∧
    (1/2 : ℚ) ≤ agg_probs (1/2) [1/3, 2/3] ∧
    (∀ q ∈ ([1/3, 2/3] : List ℚ), q ≤ agg_probs (1/2) [1/3, 2/3]) ∧
    agg_probs (1/2 : ℚ) [] = 1/2 ∧
    (∀ i : Unit, aggStar [fun _ => (1/2 : ℚ)] i = 1/2) :=
  C10_agg_probs_bounds (ι := Unit) (1/2) [1/3, 2/3] (fun _ => 1/2)
    (by norm_num) (by intro q hq; fin_cases hq <;> norm_num)

section SearchSorted

/-- Embedding of `numpy.searchsorted(edges, v)` with the default side='left', on a
sorted array (the only way the source uses it, `mag_edges` being sorted
bin edges): the first index whose element is ≥ v, i.e. the length of the
initial run of elements < v. -/
def searchsorted (edges : List ℚ) (v : ℚ) : Nat :=
  match edges with
  | [] => 0
  | e :: rest => if e < v then searchsorted rest v + 1 else 0

/-- The magnitude bin index computed inside `get_indices_by_gidx_mag`:
`magi = numpy.searchsorted(mag_edges, mag) - 1` (a Python int, so it can be
-1). -/
def magIndex (mag_edges : List ℚ) (mag : ℚ) : Int :=
  (searchsorted mag_edges mag : Int) - 1

theorem searchsorted_lt_of_exists (edges : List ℚ) (v : ℚ)
    (h : ∃ e ∈ edges, v ≤ e) : searchsorted edges v < edges.length := by
  induction edges with
  | nil => simp at h
  | cons e rest ih =>
      simp only [searchsorted, List.length_cons]
      by_cases hev : e < v
      · rw [if_pos hev]
        obtain ⟨x, hx, hvx⟩ := h
        rcases List.mem_cons.mp hx with rfl | hx2
        · exact absurd hev (not_lt.mpr hvx)
        · have := ih ⟨x, hx2, hvx⟩
          omega
      · rw [if_neg hev]
        omega

/-- On a strictly increasing list ending in `x`, searching for `x` itself
returns the position of `x`. -/
theorem searchsorted_append_last (l : List ℚ) (x : ℚ)
    (hs : List.Pairwise (fun a b => a < b) (l ++ [x])) :
    searchsorted (l ++ [x]) x = l.length := by
  induction l with
  | nil => simp [searchsorted]
  | cons e l ih =>
      have hex : e < x := (List.pairwise_cons.mp hs).1 x (by simp)
      simp only [List.cons_append, searchsorted, if_pos hex, List.length_cons,
        List.append_eq]
      rw [ih (List.pairwise_cons.mp hs).2]

end SearchSorted

/-- C3 counterexample: for the strictly increasing magnitude edges
[1, 2, 3] (so n_bins = 2) and a magnitude of exactly 1 = edges[0], which
lies in the closed range [edges[0], edges[-1]], the computed bin index is
-1, outside [0, n_bins - 1]. -/
theorem C3_magIndex_counterexample :
    List.Pairwise (fun a b : ℚ => a < b) [1, 2, 3] ∧
    (1 : ℚ) ≤ 1 ∧ (1 : ℚ) ≤ 3 ∧
    magIndex [1, 2, 3] 1 = -1 ∧
    ¬ (0 ≤ magIndex [1, 2, 3] 1 ∧ magIndex [1, 2, 3] 1 ≤ 2 - 1) := by
  refine ⟨?_, by norm_num, by norm_num, ?_, ?_⟩
  · norm_num
  · decide
  · decide

/-- C3 (amended): for strictly increasing magnitude edges and a magnitude
strictly greater than the first edge and at most the last edge, the bin
index `searchsorted(mag_edges, mag) - 1` lies in [0, n_bins - 1], and a
magnitude exactly equal to the last edge falls in the last bin. -/
theorem C3_magIndex_in_range (edges : List ℚ) (mag : ℚ) (hne : edges ≠ [])
    (hsorted : List.Pairwise (fun a b => a < b) edges)
    (hlo : edges.head hne < mag) (hhi : mag ≤ edges.getLast hne) :
    (0 ≤ magIndex edges mag ∧ magIndex edges mag ≤ (edges.length : Int) - 1 - 1) ∧
    (mag = edges.getLast hne → magIndex edges mag = (edges.length : Int) - 1 - 1) := by
  have hlen : 0 < edges.length := List.length_pos.mpr hne
  constructor
  · constructor
    · cases edges with
      | nil => exact absurd rfl hne
      | cons e rest =>
          simp only [List.head_cons] at hlo
          simp only [magIndex, searchsorted, if_pos hlo]
          omega
    · have hmem : edges.getLast hne ∈ edges := List.getLast_mem hne
      have := searchsorted_lt_of_exists edges mag ⟨_, hmem, hhi⟩
      simp only [magIndex]
      omega
  · intro heq
    have hdrop : edges.dropLast ++ [edges.getLast hne] = edges :=
      List.dropLast_append_getLast hne
    have hs2 : List.Pairwise (fun a b : ℚ => a < b)
        (edges.dropLast ++ [edges.getLast hne]) := by
      rw [hdrop]; exact hsorted
    have := searchsorted_append_last edges.dropLast (edges.getLast hne) hs2
    rw [hdrop] at this
    have hlend : edges.dropLast.length = edges.length - 1 := List.length_dropLast edges
    simp only [magIndex, heq, this]
    omega

/-- Witness for the amended C3 at edges = [1, 2, 3] and mag = 3 (the last
edge): the index is 1 = n_bins - 1. -/
theorem C3_magIndex_in_range_witness :
    (0 ≤ magIndex [1, 2, 3] 3 ∧ magIndex [1, 2, 3] 3 ≤ (3 : Int) - 1 - 1) ∧
    ((3 : ℚ) = ([1, 2, 3] : List ℚ).getLast (by simp) →
      magIndex [1, 2, 3] 3 = (3 : Int) - 1 - 1) := by
  have h := C3_magIndex_in_range [1, 2, 3] 3 (by simp)
    (by norm_num) (by norm_num) (by decide)
  exact ⟨h.1, h.2⟩

section InitChecks

/-- Embedding of `DisaggregationCalculator.init`: raise if `N >= 32768`, then raise if
`N > max_sites_disagg`, otherwise proceed (to `super().init()`). -/
def init_sites_check (N max_sites_disagg : Nat) : Except String Unit :=
  if N ≥ 32768 then
    Except.error "You can disaggregate at max 32,768 sites"
  else if N > max_sites_disagg then
    Except.error "The number of sites to disaggregate exceeds max_sites_disagg"
  else
    Except.ok ()

end InitChecks

/-- C6: initialization raises an error when the site count is at least
32768 or exceeds the configured max_sites_disagg, and succeeds (with
respect to these two checks) otherwise. -/
theorem C6_init_sites_check (N few : Nat) :
    (32768 ≤ N →
      init_sites_check N few = .error "You can disaggregate at max 32,768 sites") ∧
    (N < 32768 → few < N →
      init_sites_check N few
        = .error "The number of sites to disaggregate exceeds max_sites_disagg") ∧
    (N < 32768 → N ≤ few → init_sites_check N few = .ok ()) := by
  refine ⟨?_, ?_, ?_⟩
  · intro h
    simp only [init_sites_check, if_pos h]
  · intro h1 h2
    simp only [init_sites_check, if_neg (by omega : ¬ N ≥ 32768), if_pos h2]
  · intro h1 h2
    simp only [init_sites_check, if_neg (by omega : ¬ N ≥ 32768),
      if_neg (by omega : ¬ N > few)]

/-- Witness for C6: 40000 sites is rejected by the hard limit, 20 sites
with max_sites_disagg = 10 is rejected by the configured limit, and 5
sites with max_sites_disagg = 10 passes. -/
theorem C6_init_sites_check_witness :
    init_sites_check 40000 10 = .error "You can disaggregate at max 32,768 sites" ∧
    init_sites_check 20 10
      = .error "The number of sites to disaggregate exceeds max_sites_disagg" ∧
    init_sites_check 5 10 = .ok () :=
  ⟨(C6_init_sites_check 40000 10).1 (by norm_num),
   (C6_init_sites_check 20 10).2.1 (by norm_num) (by norm_num),
   (C6_init_sites_check 5 10).2.2 (by norm_num) (by norm_num)⟩

section SaveBinEdges

/-- The five bin-edge arrays of `self.bin_edges`: magnitude, distance
(global), longitude, latitude (per site id), epsilon (global). -/
structure BinEdges where
  mags : List ℚ
  dists : List ℚ
  lons : Nat → List ℚ
  lats : Nat → List ℚ
  eps : List ℚ

/-- Fatal configuration errors raised in `full_disaggregation`. -/
inductive DisaggError where
  | matrixTooLarge (size : Nat)
deriving DecidableEq

/-- The `disagg-bins` datasets written by `save_bin_edges`. -/
structure SavedBins where
  mags : List ℚ
  dists : List ℚ
  lons : List (Nat × List ℚ)
  lats : List (Nat × List ℚ)
  eps : List ℚ
deriving DecidableEq

/-- Embedding of `shape = [len(bin) - 1 for bin in (b[0], b[1], b[2][0], b[3][0], b[4])]
+ [T]; matrix_size = numpy.prod(shape)` from `save_bin_edges`. -/
def matrix_size (b : BinEdges) (T : Nat) : Nat :=
  ([b.mags.length - 1, b.dists.length - 1, (b.lons 0).length - 1,
    (b.lats 0).length - 1, b.eps.length - 1, T] : List Nat).prod

/-- Embedding of `DisaggregationCalculator.save_bin_edges`: raise when the 6D matrix
size exceeds 1,000,000 elements (reporting the size), otherwise persist
the edges under `disagg-bins`. -/
def save_bin_edges (b : BinEdges) (T : Nat) (sids : List Nat) :
    Except DisaggError SavedBins :=
  if matrix_size b T > 1000000 then
    Except.error (.matrixTooLarge (matrix_size b T))
  else
    Except.ok ⟨b.mags, b.dists, sids.map (fun s => (s, b.lons s)),
               sids.map (fun s => (s, b.lats s)), b.eps⟩

/-- The fragment of `full_disaggregation` around `save_bin_edges`: the bin
edges are saved (possibly raising) strictly before the disaggregation
tasks `allargs` are submitted to the Starmap. -/
def save_edges_then_submit {τ : Type} (b : BinEdges) (T : Nat)
    (sids : List Nat) (allargs : List τ) :
    Except DisaggError (SavedBins × List τ) :=
  match save_bin_edges b T sids with
  | .error e => .error e
  | .ok saved => .ok (saved, allargs)

end SaveBinEdges

/-- C5: when the product of the six bin counts exceeds 1,000,000 the run
fails with a configuration error carrying the computed element count and
no task is submitted; otherwise the bin edges are persisted and the run
proceeds with the prepared tasks. -/
theorem C5_save_bin_edges {τ : Type} (b : BinEdges) (T : Nat)
    (sids : List Nat) (allargs : List τ) :
    (1000000 < matrix_size b T →
      save_edges_then_submit b T sids allargs
        = .error (.matrixTooLarge (matrix_size b T))) ∧
    (matrix_size b T ≤ 1000000 →
      save_edges_then_submit b T sids allargs
        = .ok (⟨b.mags, b.dists, sids.map (fun s => (s, b.lons s)),
                sids.map (fun s => (s, b.lats s)), b.eps⟩, allargs)) := by
  constructor
  · intro h
    simp only [save_edges_then_submit, save_bin_edges, if_pos h]
  · intro h
    simp only [save_edges_then_submit, save_bin_edges,
      if_neg (by omega : ¬ matrix_size b T > 1000000)]

/-- Witness for C5: with single-bin edges and T = 2,000,000 trts the size
check fires with the exact count; with T = 2 the edges are persisted. -/
theorem C5_save_bin_edges_witness :
    (save_edges_then_submit (τ := Unit)
        ⟨[0, 1], [0, 1], fun _ => [0, 1], fun _ => [0, 1], [0, 1]⟩
        2000000 [0] []
      = .error (.matrixTooLarge 2000000)) ∧
    (save_edges_then_submit (τ := Unit)
        ⟨[0, 1], [0, 1], fun _ => [0, 1], fun _ => [0, 1], [0, 1]⟩ 2 [0] []
      = .ok (⟨[0, 1], [0, 1], [(0, [0, 1])], [(0, [0, 1])], [0, 1]⟩, [])) := by
  constructor
  · have h := (C5_save_bin_edges (τ := Unit)
      ⟨[0, 1], [0, 1], fun _ => [0, 1], fun _ => [0, 1], [0, 1]⟩
      2000000 [0] []).1 (by simp [matrix_size])
    simpa [matrix_size] using h
  · exact (C5_save_bin_edges (τ := Unit)
      ⟨[0, 1], [0, 1], fun _ => [0, 1], fun _ => [0, 1], [0, 1]⟩ 2 [0] []).2
      (by simp [matrix_size])

section SelectRlzs

/-- The realization-selection fragment of `full_disaggregation` building
the (N, Z) integer array `rlzs` and then asserting `Z <= R`. The
`closest_to_ref` collaborator (realization indices sorted by closeness to
the weighted mean curve, computed per site) is abstracted as `closest`. -/
def select_rlzs (N R : Nat) (rlz_index : Option (List Nat))
    (num_rlzs_disagg : Nat) (closest : Nat → List Nat) :
    Except String (Nat × List (List Nat)) :=
  match rlz_index with
  | none =>
      let Z := num_rlzs_disagg
      let rlzs := (List.range N).map (fun s =>
        if 1 < R then (closest s).take Z else List.replicate Z 0)
      if Z ≤ R then Except.ok (Z, rlzs)
      else Except.error "AssertionError: Z <= R"
  | some idxs =>
      let Z := idxs.length
      let rlzs := (List.range N).map (fun _ => idxs)
      if Z ≤ R then Except.ok (Z, rlzs)
      else Except.error "AssertionError: Z <= R"

end SelectRlzs

/-- C9: every selection that proceeds past the `assert Z <= self.R`
satisfies Z ≤ R; the output is an N×Z matrix of realization indices; and
with explicitly configured indices every site gets the same Z indices. -/
theorem C9_select_rlzs (N R : Nat) (rlz_index : Option (List Nat))
    (nz : Nat) (closest : Nat → List Nat)
    (hclos : ∀ s, (closest s).length = R)
    (Z : Nat) (rlzs : List (List Nat))
    (hok : select_rlzs N R rlz_index nz closest = .ok (Z, rlzs)) :
    Z ≤ R ∧
    rlzs.length = N ∧
    (∀ row ∈ rlzs, row.length = Z) ∧
    (∀ idxs, rlz_index = some idxs → ∀ row ∈ rlzs, row = idxs) := by
  cases rlz_index with
  | none =>
      simp only [select_rlzs] at hok
      split at hok
      · injection hok with h
        injection h with hZ hr
        subst hZ
        subst hr
        refine ⟨by assumption, by simp, ?_, ?_⟩
        · intro row hrow
          obtain ⟨s, _, rfl⟩ := List.mem_map.mp hrow
          by_cases hR : 1 < R
          · simp only [if_pos hR, List.length_take, hclos s]
            omega
          · simp [if_neg hR]
        · intro idxs h
          exact absurd h (by simp)
      · exact absurd hok (by simp)
  | some idxs =>
      simp only [select_rlzs] at hok
      split at hok
      · injection hok with h
        injection h with hZ hr
        subst hZ
        subst hr
        refine ⟨by assumption, by simp, ?_, ?_⟩
        · intro row hrow
          obtain ⟨s, _, rfl⟩ := List.mem_map.mp hrow
          rfl
        · intro idxs2 h row hrow
          obtain ⟨s, _, rfl⟩ := List.mem_map.mp hrow
          cases h
          rfl
      · exact absurd hok (by simp)

/-- Witness for C9 at N = 2, R = 3, explicit indices [1, 2]: selection
succeeds with Z = 2 ≤ 3 and both rows equal to [1, 2]. -/
theorem C9_select_rlzs_witness :
    2 ≤ 3 ∧
    ([[1, 2], [1, 2]] : List (List Nat)).length = 2 ∧
    (∀ row ∈ ([[1, 2], [1, 2]] : List (List Nat)), row.length = 2) ∧
    (∀ idxs, some [1, 2] = some idxs →
      ∀ row ∈ ([[1, 2], [1, 2]] : List (List Nat)), row = idxs) :=
  C9_select_rlzs 2 3 (some [1, 2]) 0 (fun _ => [0, 1, 2])
    (fun _ => rfl) 2 [[1, 2], [1, 2]] rfl

section CheckPoes

/-- A hazard curve as consumed by `_check_curves`: for each IMT, the array
of probabilities of exceedance (one per intensity level). -/
def Curve := String → List ℚ

/-- One `logging.warning(POE_TOO_BIG, sid, poe, max_poe, rlz, imt)` call
made by `_check_curves`. -/
structure PoeWarning where
  sid : Nat
  poe : ℚ
  maxPoe : ℚ
  rlz : Nat
  imt : String
deriving DecidableEq

/-- Embedding of `.max()` of a numpy array (the poes of a curve for one IMT); the
source never calls it on an empty array. -/
def listMax : List ℚ → ℚ
  | [] => 0
  | [a] => a
  | a :: b :: rest => max a (listMax (b :: rest))

/-- Embedding of `_check_curves(sid, rlzs, curves, imtls, poes_disagg)`: for every
(rlz, curve) pair, IMT and poe, log a POE_TOO_BIG warning whenever
`poe > curve[imt].max()`; return the logged warnings and `bool(bad)`. -/
def _check_curves (sid : Nat) (rlzs : List Nat) (curves : List Curve)
    (imtls : List String) (poes_disagg : List ℚ) : List PoeWarning × Bool :=
  let ws := (rlzs.zip curves).flatMap (fun rc =>
    imtls.flatMap (fun imt =>
      (poes_disagg.filter (fun poe => decide (listMax (rc.2 imt) < poe))).map
        (fun poe => ⟨sid, poe, listMax (rc.2 imt), rc.1, imt⟩)))
  (ws, !ws.isEmpty)

/-- The ok_sites filter of `check_poes_disagg`: a site whose curves are
all None is kept directly; otherwise it is kept iff `_check_curves` found
nothing bad. (With a mixed None/non-None curve list the source would
raise a TypeError at `curve[imt]`; the theorems below are about sites
whose curves are all present or all absent.) -/
def ok_sites_of (sids : List Nat) (rlzs : Nat → List Nat)
    (curves : Nat → List (Option Curve)) (imtls : List String)
    (poes_disagg : List ℚ) : List Nat :=
  sids.filter (fun sid =>
    ((curves sid).all (fun c => c.isNone)) ||
    !(_check_curves sid (rlzs sid) ((curves sid).reduceOption)
        imtls poes_disagg).2)

/-- Embedding of `DisaggregationCalculator.check_poes_disagg`: compute ok_sites and
raise SystemExit('Cannot do any disaggregation') when it is empty. -/
def check_poes_disagg (sids : List Nat) (rlzs : Nat → List Nat)
    (curves : Nat → List (Option Curve)) (imtls : List String)
    (poes_disagg : List ℚ) : Except String (List Nat) :=
  let ok_sites := ok_sites_of sids rlzs curves imtls poes_disagg
  if ok_sites.length = 0 then
    Except.error "Cannot do any disaggregation"
  else
    Except.ok ok_sites

end CheckPoes

/-- C4: a site with curves present for which some requested poe exceeds
the maximum probability of some realization's curve for some IMT gets a
POE_TOO_BIG warning naming site, poe, max probability, realization and
IMT, and is excluded from ok_sites; a site with no such excess stays in
ok_sites; and the run aborts exactly when ok_sites is empty. -/
theorem C4_check_poes_disagg (sids : List Nat) (rlzs : Nat → List Nat)
    (curves : Nat → List (Option Curve)) (imtls : List String)
    (poes : List ℚ) :
    (∀ sid ∈ sids, (curves sid).all (fun c => c.isNone) = false →
      ∀ rc ∈ (rlzs sid).zip ((curves sid).reduceOption), ∀ imt ∈ imtls,
        ∀ poe ∈ poes, listMax (rc.2 imt) < poe →
          (⟨sid, poe, listMax (rc.2 imt), rc.1, imt⟩ : PoeWarning) ∈
            (_check_curves sid (rlzs sid) ((curves sid).reduceOption)
              imtls poes).1 ∧
          sid ∉ ok_sites_of sids rlzs curves imtls poes) ∧
    (∀ sid ∈ sids,
      (∀ rc ∈ (rlzs sid).zip ((curves sid).reduceOption), ∀ imt ∈ imtls,
        ∀ poe ∈ poes, poe ≤ listMax (rc.2 imt)) →
      sid ∈ ok_sites_of sids rlzs curves imtls poes) ∧
    (check_poes_disagg sids rlzs curves imtls poes
        = .error "Cannot do any disaggregation" ↔
      ok_sites_of sids rlzs curves imtls poes = []) := by
  refine ⟨?_, ?_, ?_⟩
  · intro sid hsid hpresent rc hrc imt himt poe hpoe hlt
    have hmem : (⟨sid, poe, listMax (rc.2 imt), rc.1, imt⟩ : PoeWarning) ∈
        (_check_curves sid (rlzs sid) ((curves sid).reduceOption)
          imtls poes).1 := by
      simp only [_check_curves]
      refine List.mem_flatMap.mpr ⟨rc, hrc, ?_⟩
      refine List.mem_flatMap.mpr ⟨imt, himt, ?_⟩
      refine List.mem_map.mpr ⟨poe, ?_, rfl⟩
      exact List.mem_filter.mpr ⟨hpoe, by simpa using hlt⟩
    refine ⟨hmem, ?_⟩
    intro hin
    have hpred := (List.mem_filter.mp hin).2
    rw [hpresent] at hpred
    simp only [Bool.false_or, Bool.not_eq_true'] at hpred
    have : (_check_curves sid (rlzs sid) ((curves sid).reduceOption)
        imtls poes).1 = [] := by
      have h2 : (_check_curves sid (rlzs sid) ((curves sid).reduceOption)
          imtls poes).2 = false := hpred
      simp only [_check_curves] at h2 ⊢
      exact List.isEmpty_iff.mp (by simpa using h2)
    rw [this] at hmem
    exact absurd hmem (List.not_mem_nil _)
  · intro sid hsid hnone
    apply List.mem_filter.mpr
    refine ⟨hsid, ?_⟩
    cases hall : (curves sid).all (fun c => c.isNone) with
    | true => simp
    | false =>
        simp only [Bool.false_or, Bool.not_eq_true']
        have hempty : (_check_curves sid (rlzs sid)
            ((curves sid).reduceOption) imtls poes).1 = [] := by
          simp only [_check_curves]
          rw [List.eq_nil_iff_forall_not_mem]
          intro w hw
          obtain ⟨rc, hrc, hw2⟩ := List.mem_flatMap.mp hw
          obtain ⟨imt, himt, hw3⟩ := List.mem_flatMap.mp hw2
          obtain ⟨poe, hpf, _⟩ := List.mem_map.mp hw3
          obtain ⟨hpoe, hdec⟩ := List.mem_filter.mp hpf
          have := hnone rc hrc imt himt poe hpoe
          simp only [decide_eq_true_eq] at hdec
          linarith
        simp only [_check_curves] at hempty ⊢
        simp [hempty]
  · constructor
    · intro h
      simp only [check_poes_disagg] at h
      split at h
      · rename_i hlen
        exact List.length_eq_zero.mp hlen
      · exact absurd h (by simp)
    · intro h
      simp only [check_poes_disagg, h]
      simp

/-- Witness for C4: site 0 (curve max 1/1000000, requested poe 1/10) is
warned about and excluded, site 1 (curve max 1/2) stays, and the run does
not abort since ok_sites = [1] is nonempty. -/
theorem C4_check_poes_disagg_witness :
    ((⟨0, 1/10, 1/1000000, 7, "PGA"⟩ : PoeWarning) ∈
      (_check_curves 0 [7] [fun _ => [1/1000000]] ["PGA"] [1/10]).1 ∧
     0 ∉ ok_sites_of [0, 1] (fun s => if s = 0 then [7] else [8])
        (fun s => if s = 0 then [some (fun _ => [1/1000000])]
                  else [some (fun _ => [1/2])]) ["PGA"] [1/10]) ∧
    1 ∈ ok_sites_of [0, 1] (fun s => if s = 0 then [7] else [8])
        (fun s => if s = 0 then [some (fun _ => [1/1000000])]
                  else [some (fun _ => [1/2])]) ["PGA"] [1/10] := by
  have h := C4_check_poes_disagg [0, 1] (fun s => if s = 0 then [7] else [8])
    (fun s => if s = 0 then [some (fun _ => [1/1000000])]
              else [some (fun _ => [1/2])]) ["PGA"] [1/10]
  constructor
  · have := h.1 0 (by simp) (by simp)
      ((7 : Nat), (fun _ => [1/1000000] : Curve)) (by simp [List.reduceOption])
      "PGA" (by simp) (1/10) (by simp) (by norm_num [listMax])
    simpa using this
  · exact h.2.1 1 (by simp)
      (by
        intro rc hrc imt himt poe hpoe
        simp only [if_neg (by norm_num : ¬ (1 : Nat) = 0)] at hrc
        simp only [List.reduceOption] at hrc
        have : rc = ((8 : Nat), (fun _ => [1/2] : Curve)) := by
          simpa using hrc
        subst this
        have : poe = 1/10 := by simpa using hpoe
        subst this
        norm_num [listMax])

section PMFExtract

/-- The argument handed to a `disagg.pmf_map` projection function inside
`_save`: either the full 6D matrix with its per-TRT axis (a list of per-TRT
5D slices), or the matrix with the TRT axis collapsed. -/
inductive PMFInput (ι : Type) where
  | full (slices : List (ι → ℚ))
  | collapsed (m : ι → ℚ)

/-- Embedding of `key.endswith('TRT')` — the pmf_map keys are embedded as character
lists (the byte-level `String.endsWith` does not reduce in proofs). -/
def key_ends_with_trt (key : List Char) : Bool :=
  ['T', 'R', 'T'].isSuffixOf key

/-- Embedding of `matrix6 if key.endswith('TRT') else aggmatrix` from `_save`, where
`aggmatrix = agg_probs(*matrix6)` collapses the TRT axis. -/
def pmf_input {ι : Type} (key : List Char) (matrix6 : List (ι → ℚ)) :
    PMFInput ι :=
  if key_ends_with_trt key then .full matrix6
  else .collapsed (aggStar matrix6)

/-- The PMF extraction loop of `_save`: for each (key, fn) of
`disagg.pmf_map` retained by `disagg_outputs` (an empty list, like a falsy
value in the source, means all), store `fn(matrix6 if key.endswith('TRT')
else aggmatrix)` under the key. -/
def extract_pmfs {ι π : Type} (pmf_map : List (List Char × (PMFInput ι → π)))
    (disagg_outputs : List (List Char)) (matrix6 : List (ι → ℚ)) :
    List (List Char × π) :=
  (pmf_map.filter
      (fun kf => disagg_outputs.isEmpty || disagg_outputs.contains kf.1)).map
    (fun kf => (kf.1, kf.2 (pmf_input kf.1 matrix6)))

end PMFExtract

/-- C7: every requested PMF is stored; a key ending in 'TRT' is computed
from the full 6D matrix keeping the per-TRT axis, every other key from the
matrix whose TRT axis was collapsed with the probability-combination rule
(`agg_probs` across the TRT slices, i.e. `1 - ∏(1 - slice)` element-wise). -/
theorem C7_trt_axis_handling {ι π : Type}
    (pmf_map : List (List Char × (PMFInput ι → π))) (outs : List (List Char))
    (m : ι → ℚ) (ms : List (ι → ℚ)) (key : List Char) (fn : PMFInput ι → π)
    (hk : (key, fn) ∈ pmf_map)
    (hsel : (outs.isEmpty || outs.contains key) = true) :
    ((key, fn (pmf_input key (m :: ms))) ∈ extract_pmfs pmf_map outs (m :: ms)) ∧
    (key_ends_with_trt key = true → pmf_input key (m :: ms) = .full (m :: ms)) ∧
    (key_ends_with_trt key = false →
      pmf_input key (m :: ms) = .collapsed (aggStar (m :: ms)) ∧
      ∀ i, aggStar (m :: ms) i
        = 1 - (1 - m i) * ((ms.map (fun f => 1 - f i)).prod)) := by
  refine ⟨?_, ?_, ?_⟩
  · apply List.mem_map.mpr
    refine ⟨(key, fn), ?_, rfl⟩
    exact List.mem_filter.mpr ⟨hk, hsel⟩
  · intro h
    simp only [pmf_input, h, if_true]
  · intro h
    refine ⟨by simp only [pmf_input, h, Bool.false_eq_true, if_false], ?_⟩
    intro i
    show agg_probs (m i) (ms.map (fun f => f i)) = _
    rw [agg_probs_eq, List.map_map]
    rfl

/-- The two-TRT constant matrix used in the C7 witness. -/
def c7mats : List (Unit → ℚ) := [fun _ => 1/2, fun _ => 1/3]

/-- The projection used in the C7 witness: the value of a collapsed matrix
at the single cell, 0 on a full matrix. -/
def c7fn : PMFInput Unit → ℚ
  | .full _ => 0
  | .collapsed mm => mm ()

/-- Witness for C7 with a two-slice (two-TRT) constant matrix: the
'Mag'-keyed PMF is stored and receives the collapsed matrix, equal to
1 - (1 - 1/2)(1 - 1/3) in each cell. -/
theorem C7_trt_axis_handling_witness :
    ((['M', 'a', 'g'], c7fn (pmf_input ['M', 'a', 'g'] c7mats)) ∈
      extract_pmfs [(['M', 'a', 'g'], c7fn)] [] c7mats) ∧
    (pmf_input ['M', 'a', 'g'] c7mats = .collapsed (aggStar c7mats)) ∧
    (∀ i : Unit, aggStar c7mats i
      = 1 - (1 - (1/2 : ℚ)) * ((([fun _ => (1/3 : ℚ)] : List (Unit → ℚ)).map
          (fun f => 1 - f i)).prod)) := by
  have h := C7_trt_axis_handling (ι := Unit) (π := ℚ)
    [(['M', 'a', 'g'], c7fn)] [] (fun _ => (1/2 : ℚ)) [fun _ => (1/3 : ℚ)]
    ['M', 'a', 'g'] c7fn (by simp) (by decide)
  exact ⟨h.1, (h.2.2 (by decide)).1, (h.2.2 (by decide)).2⟩

section SparseResults

/-- The tail of the per-site loop of `compute_disagg`: the task yields its
`{trti, magi, imti, sid: matrix}` dictionary only when `bdata.pnes.sum()`
is nonzero and the matrix built by `disagg.build_disagg_matrix` has some
nonzero cell (`matrix.any()`). The 6D matrix is its flat list of cells. -/
def compute_disagg_site (pnes : List ℚ) (matrix : List ℚ) :
    Option (List ℚ) :=
  if pnes.sum ≠ 0 then
    (if matrix.any (fun c => decide (c ≠ 0)) then some matrix else none)
  else none

/-- The per-z loop of `save_disagg_results` for one (site, poe, imt):
`mat6 = mat7[..., z]; if mat6.any(): self._save(...)` — the list of
(z, matrix) pairs actually handed to `_save`. -/
def save_disagg_z (mats : List (List ℚ)) : List (Nat × List ℚ) :=
  mats.enum.filter (fun zm => zm.2.any (fun c => decide (c ≠ 0)))

/-- Modelled from the spec: the `disagg.pmf_map` projection functions live
in openquake.hazardlib.calc.disagg, which is not under src/; per the spec
each extracted PMF cell is the combined probability `1 - ∏(1 - p)` over
the input cells it covers, every input cell being covered by exactly the
output cell its bins map to (`g`). -/
def pmf_proj (g : Nat → Nat) (m : List ℚ) (k : Nat) : ℚ :=
  1 - (((List.range m.length).filter (fun i => decide (g i = k))).map
        (fun i => 1 - m.getD i 0)).prod

end SparseResults

/-- C8: a task yields a per-site result only when the built matrix has a
nonzero cell; saving skips every z whose 6D matrix is entirely zero (so an
all-zero (site, rlz, poe, imt) combination persists nothing); and a
persisted matrix of probabilities in [0,1] with a nonzero cell has no
entirely-zero projected PMF, so an entirely-zero PMF is never persisted. -/
theorem C8_no_zero_results (pnes : List ℚ) (matrix : List ℚ)
    (mats : List (List ℚ)) (g : Nat → Nat) (m : List ℚ)
    (hm01 : ∀ c ∈ m, 0 ≤ c ∧ c ≤ 1) :
    (compute_disagg_site pnes matrix ≠ none → ∃ c ∈ matrix, c ≠ 0) ∧
    (∀ z mat, (z, mat) ∈ save_disagg_z mats → ∃ c ∈ mat, c ≠ 0) ∧
    (∀ z mat, (z, mat) ∈ mats.enum → (∀ c ∈ mat, c = 0) →
      (z, mat) ∉ save_disagg_z mats) ∧
    ((∃ c ∈ m, c ≠ 0) → ∃ k, pmf_proj g m k ≠ 0) := by
  refine ⟨?_, ?_, ?_, ?_⟩
  · intro h
    simp only [compute_disagg_site] at h
    split at h
    · split at h
      · rename_i hany
        obtain ⟨c, hc, hdec⟩ := List.any_eq_true.mp hany
        exact ⟨c, hc, by simpa using hdec⟩
      · exact absurd rfl h
    · exact absurd rfl h
  · intro z mat hmem
    have := (List.mem_filter.mp hmem).2
    obtain ⟨c, hc, hdec⟩ := List.any_eq_true.mp this
    exact ⟨c, hc, by simpa using hdec⟩
  · intro z mat hmem hzero hsaved
    have := (List.mem_filter.mp hsaved).2
    obtain ⟨c, hc, hdec⟩ := List.any_eq_true.mp this
    exact absurd (hzero c hc) (by simpa using hdec)
  · rintro ⟨c, hc, hcne⟩
    obtain ⟨i, hi, hig⟩ := List.mem_iff_getElem.mp hc
    refine ⟨g i, ?_⟩
    have hfac : ∀ x ∈ ((List.range m.length).filter
        (fun j => decide (g j = g i))).map (fun j => 1 - m.getD j 0),
        0 ≤ x ∧ x ≤ 1 := by
      intro x hx
      obtain ⟨j, hj, rfl⟩ := List.mem_map.mp hx
      have hjr := List.mem_range.mp (List.mem_filter.mp hj).1
      have hmm : m.getD j 0 ∈ m := by
        rw [List.getD_eq_getElem m 0 hjr]
        exact List.getElem_mem hjr
      have := hm01 _ hmm
      constructor <;> linarith [this.1, this.2]
    have hmemf : (1 - m.getD i 0) ∈ ((List.range m.length).filter
        (fun j => decide (g j = g i))).map (fun j => 1 - m.getD j 0) := by
      apply List.mem_map.mpr
      refine ⟨i, ?_, rfl⟩
      exact List.mem_filter.mpr ⟨List.mem_range.mpr hi, by simp⟩
    have hprodle := list_prod_le_mem _ hfac _ hmemf
    have hci : m.getD i 0 = c := by
      rw [List.getD_eq_getElem m 0 hi]
      exact hig
    have hcpos : 0 < c := lt_of_le_of_ne (hm01 c hc).1 (Ne.symm hcne)
    simp only [pmf_proj]
    rw [hci] at hprodle
    intro hzero
    have : (((List.range m.length).filter
        (fun j => decide (g j = g i))).map (fun j => 1 - m.getD j 0)).prod = 1 := by
      linarith
    linarith

/-- Witness for C8: a task with matrix [0, 1/3] yields (nonzero cell
present); the all-zero z = 0 slot of [[0, 0], [1/4]] is skipped while only
nonzero slots are kept; and the projection of [1/2, 0] onto one output
cell is nonzero. -/
theorem C8_no_zero_results_witness :
    (compute_disagg_site [1/2] [0, 1/3] ≠ none → ∃ c ∈ ([0, 1/3] : List ℚ), c ≠ 0) ∧
    (∀ z mat, (z, mat) ∈ save_disagg_z [[0, 0], [1/4]] → ∃ c ∈ mat, c ≠ 0) ∧
    (∀ z mat, (z, mat) ∈ ([[0, 0], [1/4]] : List (List ℚ)).enum →
      (∀ c ∈ mat, c = 0) → (z, mat) ∉ save_disagg_z [[0, 0], [1/4]]) ∧
    ((∃ c ∈ ([1/2, 0] : List ℚ), c ≠ 0) →
      ∃ k, pmf_proj (fun _ => 0) [1/2, 0] k ≠ 0) :=
  C8_no_zero_results [1/2] [0, 1/3] [[0, 0], [1/4]] (fun _ => 0) [1/2, 0]
    (by intro c hc; fin_cases hc <;> norm_num)

end OQDisagg
